import Mathlib

/-!
Verification of the Trilinos adapter layer:
* the Amesos2 `MatrixAdapter` for distributed CRS matrices (`getCrs`/`getCcs`
  extraction and the dimension queries), and
* the Belos/MueLu preconditioner operator adapter
  (`Belos::MueLuEpetraPrecOp::Apply`).

The `MueLuEpetraPrecOp` definitions are a shallow embedding of
`packages/muelu/src/MueCentral/BelosMueLuAdapter.hpp`.  The matrix-format
adapter implementation itself is not part of the sources (only its unit
tests, `packages/amesos2/test/adapters/Tpetra_CrsMatrix_Adapter_UnitTests.cpp`,
are), so those definitions are modelled from the specification, as marked in
their doc comments.
-/

namespace Trilinos

/-! ### Generic slice / pointer-array machinery for compressed storage -/

/-- The half-open slice `[a, b)` of a list: the elements at indices
`a, a+1, …, b-1`. -/
def slice (l : List α) (a b : Nat) : List α :=
  (l.take b).drop a

/-- Pointer array of a block decomposition: entry `i` is the total number of
elements in the blocks preceding block `i`.  This is the `rowptr`/`colptr`
shape used by CRS/CCS storage. -/
def ptrOf (L : List (List α)) : List Nat :=
  (List.range (L.length + 1)).map (fun i => ((L.map List.length).take i).sum)

/-! ### The distributed sparse matrix and the format adapter -/

/-- A stored nonzero of a sparse row: (global column index, value). -/
abbrev Entry := Nat × Int

/-- Modelled from the spec: the fill-completed distributed sparse matrix
(`Tpetra::CrsMatrix`), reduced to its global content.  Spec §3 describes a
row-partitioned matrix whose extraction results are, by spec §5, deterministic
with respect to global row identity and independent of the partitioning, so the
model keeps the global row list: `rows.get r` is the list of stored nonzeros of
global row `r`, in local storage order. -/
structure CrsMatrix where
  numRows : Nat
  numCols : Nat
  rows : List (List Entry)

/-- A fill-completed matrix: one entry list per global row, no duplicate
column indices within a row, and all column indices in range. -/
def CrsMatrix.WellFormed (M : CrsMatrix) : Prop :=
  M.rows.length = M.numRows ∧
    ∀ row ∈ M.rows, (row.map Prod.fst).Nodup ∧ ∀ e ∈ row, e.1 < M.numCols

/-- Modelled from the spec: the wrapped matrix's global row count. -/
def CrsMatrix.getGlobalNumRows (M : CrsMatrix) : Nat := M.numRows

/-- Modelled from the spec: the wrapped matrix's global column count. -/
def CrsMatrix.getGlobalNumCols (M : CrsMatrix) : Nat := M.numCols

/-- Modelled from the spec: the wrapped matrix's global nonzero count. -/
def CrsMatrix.getGlobalNumEntries (M : CrsMatrix) : Nat :=
  (M.rows.map List.length).sum

/-- Modelled from the spec: the local (per-process) row count; in the
partition-independent model the local view is the global one. -/
def CrsMatrix.getNodeNumRows (M : CrsMatrix) : Nat := M.numRows

/-- Modelled from the spec: the local (per-process) column count. -/
def CrsMatrix.getNodeNumCols (M : CrsMatrix) : Nat := M.numCols

/-- Modelled from the spec: the local (per-process) nonzero count. -/
def CrsMatrix.getNodeNumEntries (M : CrsMatrix) : Nat :=
  M.getGlobalNumEntries

/-- Modelled from the spec: the maximum number of stored entries in any
single global row. -/
def CrsMatrix.getGlobalMaxNumRowEntries (M : CrsMatrix) : Nat :=
  (M.rows.map List.length).foldr max 0

/-- Modelled from the spec: the format adapter wraps a fill-completed
distributed sparse matrix (non-owning reference; copy construction is
shallow). -/
structure MatrixAdapter where
  mat : CrsMatrix

/-- Modelled from the spec: pure delegation to the wrapped matrix. -/
def MatrixAdapter.getGlobalNNZ (A : MatrixAdapter) : Nat :=
  A.mat.getGlobalNumEntries

/-- Modelled from the spec: pure delegation to the wrapped matrix. -/
def MatrixAdapter.getLocalNNZ (A : MatrixAdapter) : Nat :=
  A.mat.getNodeNumEntries

/-- Modelled from the spec: pure delegation to the wrapped matrix. -/
def MatrixAdapter.getGlobalNumRows (A : MatrixAdapter) : Nat :=
  A.mat.getGlobalNumRows

/-- Modelled from the spec: pure delegation to the wrapped matrix. -/
def MatrixAdapter.getGlobalNumCols (A : MatrixAdapter) : Nat :=
  A.mat.getGlobalNumCols

/-- Modelled from the spec: pure delegation to the wrapped matrix. -/
def MatrixAdapter.getLocalNumRows (A : MatrixAdapter) : Nat :=
  A.mat.getNodeNumRows

/-- Modelled from the spec: pure delegation to the wrapped matrix. -/
def MatrixAdapter.getLocalNumCols (A : MatrixAdapter) : Nat :=
  A.mat.getNodeNumCols

/-- Modelled from the spec: pure delegation to the wrapped matrix. -/
def MatrixAdapter.getMaxNNZ (A : MatrixAdapter) : Nat :=
  A.mat.getGlobalMaxNumRowEntries

/-- The GlobalCRS artifact produced by `getCrs`. -/
structure GlobalCrs where
  nzvals : List Int
  colind : List Nat
  rowptr : List Nat
  nnz : Nat

/-- The GlobalCCS artifact produced by `getCcs`. -/
structure GlobalCcs where
  nzvals : List Int
  rowind : List Nat
  colptr : List Nat
  nnz : Nat

/-- Modelled from the spec: `getCrs` gathers every local nonzero triple and
reconciles it into global row order; row-internal order is unspecified (the
model keeps each row's local storage order). -/
def MatrixAdapter.getCrs (A : MatrixAdapter) : GlobalCrs :=
  { nzvals := A.mat.rows.flatten.map Prod.snd
    colind := A.mat.rows.flatten.map Prod.fst
    rowptr := ptrOf A.mat.rows
    nnz := A.mat.getGlobalNumEntries }

/-- Modelled from the spec: the nonzeros of global column `c`, as
(global row, value) pairs collected in increasing row order — the
column-bucketing pass with the explicit ascending-row guarantee. -/
def CrsMatrix.colEntries (M : CrsMatrix) (c : Nat) : List (Nat × Int) :=
  (List.range M.numRows).flatMap
    (fun r => ((M.rows.getD r []).filter (fun e => e.1 == c)).map (fun e => (r, e.2)))

/-- The column buckets of a matrix, one per global column. -/
def CrsMatrix.ccsCols (M : CrsMatrix) : List (List (Nat × Int)) :=
  (List.range M.numCols).map M.colEntries

/-- Modelled from the spec: `getCcs` is the column-major analogue of
`getCrs`, with the additional guarantee that row indices are ascending within
each column slice. -/
def MatrixAdapter.getCcs (A : MatrixAdapter) : GlobalCcs :=
  { nzvals := A.mat.ccsCols.flatten.map Prod.snd
    rowind := A.mat.ccsCols.flatten.map Prod.fst
    colptr := ptrOf A.mat.ccsCols
    nnz := A.mat.getGlobalNumEntries }

/-- The slice of the `(colind, values)` pair sequence belonging to global
row `r`, as delimited by `rowptr`. -/
def GlobalCrs.rowSlice (C : GlobalCrs) (r : Nat) : List (Nat × Int) :=
  slice (C.colind.zip C.nzvals) (C.rowptr.getD r 0) (C.rowptr.getD (r + 1) 0)

/-- The slice of the `(rowind, values)` pair sequence belonging to global
column `c`, as delimited by `colptr`. -/
def GlobalCcs.colSlice (C : GlobalCcs) (c : Nat) : List (Nat × Int) :=
  slice (C.rowind.zip C.nzvals) (C.colptr.getD c 0) (C.colptr.getD (c + 1) 0)

/-- Error taxonomy of the format adapter (spec §7). -/
inductive AdapterError
  | sizeMismatch
deriving DecidableEq

/-- Modelled from the spec: `getCrs` with caller-provided buffer sizes; a
buffer too small for the extraction fails with `SizeMismatch` instead of
truncating. -/
def MatrixAdapter.getCrsChecked (A : MatrixAdapter)
    (nzvalsSize colindSize rowptrSize : Nat) : Except AdapterError GlobalCrs :=
  if nzvalsSize < A.getGlobalNNZ ∨ colindSize < A.getGlobalNNZ ∨
      rowptrSize < A.getGlobalNumRows + 1 then
    Except.error AdapterError.sizeMismatch
  else
    Except.ok A.getCrs

/-- Modelled from the spec: `getCcs` with caller-provided buffer sizes; a
buffer too small for the extraction fails with `SizeMismatch` instead of
truncating. -/
def MatrixAdapter.getCcsChecked (A : MatrixAdapter)
    (nzvalsSize rowindSize colptrSize : Nat) : Except AdapterError GlobalCcs :=
  if nzvalsSize < A.getGlobalNNZ ∨ rowindSize < A.getGlobalNNZ ∨
      colptrSize < A.getGlobalNumCols + 1 then
    Except.error AdapterError.sizeMismatch
  else
    Except.ok A.getCcs

/-- The 6×6 test matrix of the adapter unit tests:
```
[ [ 7,  0, -3,  0, -1,  0 ]
  [ 2,  8,  0,  0,  0,  0 ]
  [ 0,  0,  1,  0,  0,  0 ]
  [ -3, 0,  0,  5,  0,  0 ]
  [ 0, -1,  0,  0,  4,  0 ]
  [ 0,  0,  0, -2,  0,  6 ] ]
``` -/
def testMatrix : CrsMatrix :=
  { numRows := 6
    numCols := 6
    rows := [[(0, 7), (2, -3), (4, -1)],
             [(0, 2), (1, 8)],
             [(2, 1)],
             [(0, -3), (3, 5)],
             [(1, -1), (4, 4)],
             [(3, -2), (5, 6)]] }

/-- Adapter wrapping the 6×6 test matrix. -/
def testAdapter : MatrixAdapter := { mat := testMatrix }

/-! ### The Belos/MueLu preconditioner operator adapter
(`BelosMueLuAdapter.hpp`) -/

/-- `Belos::ETrans`, the transpose mode of an operator application. -/
inductive ETrans
  | NOTRANS
  | TRANS
  | CONJTRANS
deriving DecidableEq

/-- A (multi)vector of scalars, the contents of an `Epetra_MultiVector`. -/
abbrev Vec := List Int

/-- `MueLu::Hierarchy`, kept opaque: `Iterate x its y0 zeroGuess` returns the
contents written into the output vector, given input `x`, iteration count
`its`, initial guess `y0` and the zero-initial-guess flag. -/
structure Hierarchy where
  Iterate : Vec → Nat → Vec → Bool → Vec

/-- `Epetra_MultiVector::PutScalar`: overwrite every entry with `s`. -/
def putScalar (v : Vec) (s : Int) : Vec :=
  v.map (fun _ => s)

/-- Failure conditions of `MueLuEpetraPrecOp::Apply`: in the C++ source both
are `EpetraOpFailure` exceptions, distinguished by their message ("transpose
mode != NOTRANS not supported" vs "x and/or y cannot be dynamic cast"). -/
inductive ApplyError
  | unsupportedOperation
  | interfaceMismatch
deriving DecidableEq

/-- `Belos::MueLuEpetraPrecOp`: wraps a `MueLu::Hierarchy`. -/
structure MueLuEpetraPrecOp where
  Hierarchy_ : Hierarchy

/-- `MueLuEpetraPrecOp::Apply(Epetra_MultiVector)`: the returned pair is the
outcome (exception or success) together with the final contents of the output
vector `y` (which the C++ mutates in place). -/
def MueLuEpetraPrecOp.Apply (P : MueLuEpetraPrecOp) (x y : Vec)
    (trans : ETrans) : Except ApplyError Unit × Vec :=
  if trans ≠ ETrans.NOTRANS then
    (Except.error ApplyError.unsupportedOperation, y)
  else
    (Except.ok (), P.Hierarchy_.Iterate x 1 (putScalar y 0) true)

/-- A `Belos::MultiVec<double>`: either the `Epetra_MultiVector` subclass the
adapter supports, or some other subclass (for which the `dynamic_cast`
fails). -/
inductive BelosMultiVec
  | epetra (v : Vec)
  | other (tag : Nat)
deriving DecidableEq

/-- The `dynamic_cast<Epetra_MultiVector*>` of a `Belos::MultiVec`. -/
def BelosMultiVec.asEpetra : BelosMultiVec → Option Vec
  | .epetra v => some v
  | .other _ => none

/-- `MueLuEpetraPrecOp::Apply(Belos::MultiVec)`: downcast both operands and
delegate; a failed downcast of either raises before anything is done. -/
def MueLuEpetraPrecOp.ApplyMV (P : MueLuEpetraPrecOp) (x y : BelosMultiVec)
    (trans : ETrans) : Except ApplyError Unit × BelosMultiVec :=
  match x.asEpetra, y.asEpetra with
  | some vx, some vy =>
      let r := P.Apply vx vy trans
      (r.1, BelosMultiVec.epetra r.2)
  | _, _ => (Except.error ApplyError.interfaceMismatch, y)

/-- A sample hierarchy for concrete instantiations. -/
def idHierarchy : Hierarchy :=
  { Iterate := fun x _ _ _ => x }

/-- A sample operator adapter wrapping `idHierarchy`. -/
def sampleOp : MueLuEpetraPrecOp :=
  { Hierarchy_ := idHierarchy }

instance (M : CrsMatrix) : Decidable M.WellFormed :=
  inferInstanceAs (Decidable (M.rows.length = M.numRows ∧
    ∀ row ∈ M.rows, (row.map Prod.fst).Nodup ∧ ∀ e ∈ row, e.1 < M.numCols))

/-! ### Helper lemmas -/

/-- `putScalar` overwrites every entry, so the result depends only on the
previous length. -/
theorem putScalar_eq_replicate (y : Vec) (s : Int) :
    putScalar y s = List.replicate y.length s := by
  induction y with
  | nil => rfl
  | cons a t ih =>
    rw [List.length_cons, List.replicate_succ, ← ih]
    rfl

/-- The pointer array has one entry per block plus one. -/
theorem length_ptrOf (L : List (List α)) : (ptrOf L).length = L.length + 1 := by
  simp [ptrOf]

/-- Entry `i` of the pointer array is the sum of the lengths of the first `i`
blocks. -/
theorem ptrOf_getD (L : List (List α)) (i : Nat) (h : i < L.length + 1) :
    (ptrOf L).getD i 0 = ((L.map List.length).take i).sum := by
  have hl : i < ((List.range (L.length + 1)).map
      (fun i => ((L.map List.length).take i).sum)).length := by
    simpa using h
  rw [ptrOf, List.getD_eq_getElem _ _ hl, List.getElem_map, List.getElem_range]

/-- Slicing the flattened blocks between consecutive pointer values recovers
block `i`. -/
theorem slice_flatten (L : List (List α)) (i : Nat) (h : i < L.length) :
    slice L.flatten (((L.map List.length).take i).sum)
        (((L.map List.length).take (i + 1)).sum) = L.getD i [] := by
  unfold slice
  rw [List.drop_take_succ_flatten_eq_getElem L i h]
  exact (List.getD_eq_getElem L [] h).symm

/-- Prefix sums of a list of naturals are monotone. -/
theorem sum_take_mono (t : List Nat) {i j : Nat} (h : i ≤ j) :
    (t.take i).sum ≤ (t.take j).sum := by
  have step : ∀ n, (t.take n).sum ≤ (t.take (n + 1)).sum := by
    intro n
    rw [List.take_succ, List.sum_append]
    exact Nat.le_add_right _ _
  exact monotone_nat_of_le_succ step h

/-- The pointer array is monotonically non-decreasing. -/
theorem ptrOf_sorted (L : List (List α)) : (ptrOf L).Sorted (· ≤ ·) :=
  List.Pairwise.map _ (fun _ _ hab => sum_take_mono _ (Nat.le_of_lt hab))
    (List.pairwise_lt_range _)

/-- The pointer array starts at 0. -/
theorem ptrOf_head (L : List (List α)) : (ptrOf L).head? = some 0 := by
  rw [ptrOf, List.range_succ_eq_map]
  rfl

/-- The pointer array ends at the total number of elements. -/
theorem ptrOf_getLast (L : List (List α)) :
    (ptrOf L).getLast? = some L.flatten.length := by
  rw [ptrOf, List.range_succ, List.map_append, List.map_cons, List.map_nil]
  rw [List.getLast?_concat]
  rw [List.take_of_length_le (by simp), List.length_flatten]

/-- A list with at most one element is vacuously pairwise. -/
theorem pairwise_of_length_le_one {R : α → α → Prop} {l : List α}
    (h : l.length ≤ 1) : l.Pairwise R := by
  match l with
  | [] => exact List.Pairwise.nil
  | [a] => simp
  | a :: b :: t => simp at h

/-- A duplicate-free row has at most one stored entry in any given column. -/
theorem filter_length_le_one {row : List Entry}
    (h : (row.map Prod.fst).Nodup) (c : Nat) :
    (row.filter (fun e => e.1 == c)).length ≤ 1 := by
  induction row with
  | nil => simp
  | cons e t ih =>
    rw [List.map_cons, List.nodup_cons] at h
    by_cases hc : e.1 = c
    · rw [List.filter_cons_of_pos (by simp [hc])]
      have ht : t.filter (fun x => x.1 == c) = [] := by
        rw [List.filter_eq_nil_iff]
        intro a ha hac
        exact h.1 (List.mem_map.mpr ⟨a, ha, by
          have : a.1 = c := by simpa using hac
          omega⟩)
      simp [ht]
    · rw [List.filter_cons_of_neg (by simp [hc])]
      exact ih h.2

/-- Flattening per-key blocks whose entries carry their own key, over a
strictly increasing key list, yields strictly increasing keys — provided each
block has at most one entry. -/
theorem sorted_fst_flatMap {f : Nat → List (Nat × Int)}
    (hfst : ∀ r p, p ∈ f r → p.1 = r) (hlen : ∀ r, (f r).length ≤ 1) :
    ∀ {l : List Nat}, l.Pairwise (· < ·) →
      ((l.flatMap f).map Prod.fst).Pairwise (· < ·) := by
  intro l hl
  induction l with
  | nil => simp
  | cons a t ih =>
    rw [List.pairwise_cons] at hl
    rw [List.flatMap_cons, List.map_append]
    refine List.pairwise_append.mpr ⟨?_, ih hl.2, ?_⟩
    · exact pairwise_of_length_le_one (by simpa using hlen a)
    · intro x hx y hy
      obtain ⟨p, hp, rfl⟩ := List.mem_map.mp hx
      obtain ⟨q, hq, rfl⟩ := List.mem_map.mp hy
      obtain ⟨b, hb, hqb⟩ := List.mem_flatMap.mp hq
      rw [hfst a p hp, hfst b q hqb]
      exact hl.1 b hb

/-- Membership in a column bucket: exactly the stored entries `(c, v)` of the
rows of the matrix, tagged with their row index. -/
theorem mem_colEntries {M : CrsMatrix} {c : Nat} {p : Nat × Int} :
    p ∈ M.colEntries c ↔ p.1 < M.numRows ∧ (c, p.2) ∈ M.rows.getD p.1 [] := by
  constructor
  · intro hp
    rw [CrsMatrix.colEntries] at hp
    obtain ⟨r, hr, hp⟩ := List.mem_flatMap.mp hp
    obtain ⟨e, he, hpe⟩ := List.mem_map.mp hp
    obtain ⟨he', hec⟩ := List.mem_filter.mp he
    cases hpe
    refine ⟨List.mem_range.mp hr, ?_⟩
    have hc : e.1 = c := by simpa using hec
    rw [← hc]
    simpa using he'
  · rintro ⟨hr, hmem⟩
    rw [CrsMatrix.colEntries]
    refine List.mem_flatMap.mpr ⟨p.1, List.mem_range.mpr hr, ?_⟩
    refine List.mem_map.mpr ⟨(c, p.2), List.mem_filter.mpr ⟨hmem, by simp⟩, by simp⟩

/-- Row indices in a column bucket are strictly increasing, because rows are
scanned in increasing order and a duplicate-free row hits a column at most
once. -/
theorem colEntries_sorted (M : CrsMatrix)
    (h : ∀ row ∈ M.rows, (row.map Prod.fst).Nodup) (c : Nat) :
    ((M.colEntries c).map Prod.fst).Pairwise (· < ·) := by
  rw [CrsMatrix.colEntries]
  refine sorted_fst_flatMap ?_ ?_ (List.pairwise_lt_range _)
  · intro r p hp
    obtain ⟨e, _, rfl⟩ := List.mem_map.mp hp
    rfl
  · intro r
    rw [List.length_map]
    by_cases hr : r < M.rows.length
    · refine filter_length_le_one (h _ ?_) c
      rw [List.getD_eq_getElem _ _ hr]
      exact List.getElem_mem _
    · rw [List.getD_eq_default _ _ (Nat.le_of_not_lt hr)]
      simp

/-- Sums of pointwise sums split. -/
theorem sum_map_add (l : List γ) (f g : γ → Nat) :
    (l.map (fun x => f x + g x)).sum = (l.map f).sum + (l.map g).sum := by
  induction l with
  | nil => rfl
  | cons a t ih => simp [ih]; omega

/-- Summing the indicator of `m` over `range n` gives 1 when `m < n`. -/
theorem sum_indicator {m n : Nat} (h : m < n) :
    ((List.range n).map (fun c => if m = c then 1 else 0)).sum = 1 := by
  induction n with
  | zero => omega
  | succ k ih =>
    rw [List.range_succ, List.map_append, List.sum_append]
    by_cases hm : m = k
    · subst hm
      have h0 : ((List.range m).map (fun c => if m = c then 1 else 0)).sum = 0 := by
        apply List.sum_eq_zero
        intro x hx
        obtain ⟨c, hc, rfl⟩ := List.mem_map.mp hx
        have : m ≠ c := by have := List.mem_range.mp hc; omega
        simp [this]
      simp [h0]
    · have hmk : m < k := by omega
      simp [ih hmk, hm]

/-- Bucketing a list of entries by their (in-range) column index preserves
the total count. -/
theorem sum_filter_lengths (l : List Entry) (n : Nat) (h : ∀ e ∈ l, e.1 < n) :
    ((List.range n).map (fun c => (l.filter (fun e => e.1 == c)).length)).sum =
      l.length := by
  induction l with
  | nil => simp
  | cons e t ih =>
    have hrw : ∀ c, ((e :: t).filter (fun x => x.1 == c)).length =
        (t.filter (fun x => x.1 == c)).length + (if e.1 = c then 1 else 0) := by
      intro c
      by_cases hc : e.1 = c
      · rw [List.filter_cons_of_pos (by simp [hc])]
        simp [hc]
      · rw [List.filter_cons_of_neg (by simp [hc])]
        simp [hc]
    rw [List.map_congr_left (fun c _ => hrw c), sum_map_add,
      ih (fun a ha => h a (List.mem_cons_of_mem _ ha)),
      sum_indicator (h e (List.mem_cons_self _ _))]
    simp

/-- Summing a function of `rows.getD r []` over `range rows.length` is the
same as summing it over the rows themselves. -/
theorem sum_map_range_getD (rows : List (List Entry)) (f : List Entry → Nat) :
    ((List.range rows.length).map (fun r => f (rows.getD r []))).sum =
      (rows.map f).sum := by
  induction rows with
  | nil => rfl
  | cons a t ih =>
    rw [List.length_cons, List.range_succ_eq_map, List.map_cons, List.map_map]
    simp only [Function.comp_def, List.getD_cons_zero, List.getD_cons_succ]
    rw [List.sum_cons, List.map_cons, List.sum_cons, ih]

/-- The size of a column bucket is the number of stored entries with that
column index. -/
theorem colEntries_length (M : CrsMatrix) (h : M.rows.length = M.numRows)
    (c : Nat) :
    (M.colEntries c).length =
      (M.rows.flatten.filter (fun e => e.1 == c)).length := by
  rw [CrsMatrix.colEntries, List.length_flatMap, ← h]
  rw [List.map_congr_left (fun r _ => by
    simp : ∀ r ∈ List.range M.rows.length, (List.length ∘ fun r =>
      ((M.rows.getD r []).filter (fun e => e.1 == c)).map (fun e => (r, e.2))) r =
      (fun r => ((M.rows.getD r []).filter (fun e => e.1 == c)).length) r)]
  rw [sum_map_range_getD M.rows (fun row => (row.filter (fun e => e.1 == c)).length)]
  rw [show (M.rows.flatten.filter (fun e => e.1 == c)).length =
      List.countP (fun e => e.1 == c) M.rows.flatten from
    (List.countP_eq_length_filter _ _).symm]
  rw [List.countP_flatten]
  exact congrArg List.sum
    (List.map_congr_left (fun row _ => (List.countP_eq_length_filter _ _).symm))

/-- The column buckets of a well-formed matrix together hold every stored
nonzero exactly once. -/
theorem ccsCols_flatten_length (M : CrsMatrix) (h : M.WellFormed) :
    M.ccsCols.flatten.length = M.getGlobalNumEntries := by
  rw [List.length_flatten, CrsMatrix.ccsCols, List.map_map]
  rw [List.map_congr_left (fun c _ => by
    simp only [Function.comp]
    exact colEntries_length M h.1 c)]
  rw [sum_filter_lengths]
  · rw [CrsMatrix.getGlobalNumEntries, List.length_flatten]
  · intro e he
    obtain ⟨row, hrow, hee⟩ := List.mem_flatten.mp he
    exact (h.2 row hrow).2 e hee

/-- Zipping the index and value arrays of `getCrs` recovers the flattened
row entries. -/
theorem getCrs_zip (A : MatrixAdapter) :
    A.getCrs.colind.zip A.getCrs.nzvals = A.mat.rows.flatten := by
  show (A.mat.rows.flatten.map Prod.fst).zip (A.mat.rows.flatten.map Prod.snd) = _
  rw [List.zip_map']
  simp

/-- Zipping the index and value arrays of `getCcs` recovers the flattened
column buckets. -/
theorem getCcs_zip (A : MatrixAdapter) :
    A.getCcs.rowind.zip A.getCcs.nzvals = A.mat.ccsCols.flatten := by
  show (A.mat.ccsCols.flatten.map Prod.fst).zip (A.mat.ccsCols.flatten.map Prod.snd) = _
  rw [List.zip_map']
  simp

/-! ### Claim theorems for the preconditioner operator adapter -/

/-- Claim C4: `Apply` in no-transpose mode first zeroes every entry of `y`
(the result depends only on `y`'s length, so poison values never leak) and
then runs exactly one preconditioning cycle of the wrapped hierarchy with the
zeroed `y` as the initial guess and the zero-initial-guess flag set. -/
theorem Apply_NOTRANS_zeroes_then_one_cycle (P : MueLuEpetraPrecOp) (x y : Vec) :
    P.Apply x y ETrans.NOTRANS =
      (Except.ok (), P.Hierarchy_.Iterate x 1 (List.replicate y.length 0) true) := by
  simp [MueLuEpetraPrecOp.Apply, putScalar_eq_replicate]

/-- Claim C5: `Apply` with any transpose mode other than `NOTRANS` fails with
the unsupported-operation condition and never produces a result (in
particular, it does not silently apply the non-transposed operator). -/
theorem Apply_trans_unsupported (P : MueLuEpetraPrecOp) (x y : Vec) (t : ETrans)
    (h : t ≠ ETrans.NOTRANS) :
    P.Apply x y t = (Except.error ApplyError.unsupportedOperation, y) := by
  simp [MueLuEpetraPrecOp.Apply, h]

/-- Witness for C5: the transpose mode is rejected on a concrete input. -/
theorem Apply_trans_unsupported_witness :
    ETrans.TRANS ≠ ETrans.NOTRANS ∧
      sampleOp.Apply [1, 2] [5] ETrans.TRANS =
        (Except.error ApplyError.unsupportedOperation, [5]) :=
  ⟨by decide, Apply_trans_unsupported sampleOp [1, 2] [5] ETrans.TRANS (by decide)⟩

/-- Claim C6: when `Apply` is invoked through the generic `Belos::MultiVec`
interface, a failed downcast of either operand fails with the
interface-mismatch condition and never produces a silent incorrect result. -/
theorem ApplyMV_downcast_mismatch (P : MueLuEpetraPrecOp) (x y : BelosMultiVec)
    (t : ETrans) (h : x.asEpetra = none ∨ y.asEpetra = none) :
    P.ApplyMV x y t = (Except.error ApplyError.interfaceMismatch, y) := by
  cases x <;> cases y <;>
    simp_all [MueLuEpetraPrecOp.ApplyMV, BelosMultiVec.asEpetra]

/-- Witness for C6: a non-Epetra `x` operand is rejected on a concrete
input. -/
theorem ApplyMV_downcast_mismatch_witness :
    ((BelosMultiVec.other 0).asEpetra = none ∨
        (BelosMultiVec.epetra [3]).asEpetra = none) ∧
      sampleOp.ApplyMV (BelosMultiVec.other 0) (BelosMultiVec.epetra [3])
          ETrans.NOTRANS =
        (Except.error ApplyError.interfaceMismatch, BelosMultiVec.epetra [3]) :=
  ⟨Or.inl rfl, ApplyMV_downcast_mismatch sampleOp (BelosMultiVec.other 0)
    (BelosMultiVec.epetra [3]) ETrans.NOTRANS (Or.inl rfl)⟩

/-- Claim C10: whenever `Apply` (either overload) fails, the exception is
raised before the output vector is modified, so `y` keeps exactly its prior
contents — the failure is atomic. -/
theorem Apply_failure_atomic :
    (∀ (P : MueLuEpetraPrecOp) (x y : Vec) (t : ETrans) (e : ApplyError),
        (P.Apply x y t).1 = Except.error e → (P.Apply x y t).2 = y) ∧
    (∀ (P : MueLuEpetraPrecOp) (x y : BelosMultiVec) (t : ETrans) (e : ApplyError),
        (P.ApplyMV x y t).1 = Except.error e → (P.ApplyMV x y t).2 = y) := by
  have h1 : ∀ (P : MueLuEpetraPrecOp) (x y : Vec) (t : ETrans) (e : ApplyError),
      (P.Apply x y t).1 = Except.error e → (P.Apply x y t).2 = y := by
    intro P x y t e h
    by_cases ht : t = ETrans.NOTRANS
    · subst ht; simp [MueLuEpetraPrecOp.Apply] at h
    · simp [MueLuEpetraPrecOp.Apply, ht]
  refine ⟨h1, ?_⟩
  intro P x y t e h
  cases x with
  | epetra vx =>
    cases y with
    | epetra vy =>
      simp only [MueLuEpetraPrecOp.ApplyMV, BelosMultiVec.asEpetra] at h ⊢
      rw [h1 P vx vy t e h]
    | other tag => simp [MueLuEpetraPrecOp.ApplyMV, BelosMultiVec.asEpetra]
  | other tag =>
    cases y <;> simp [MueLuEpetraPrecOp.ApplyMV, BelosMultiVec.asEpetra]

/-- Witness for C10: on concrete failing inputs of both kinds, the output
vector is unchanged. -/
theorem Apply_failure_atomic_witness :
    (sampleOp.Apply [1] [9] ETrans.CONJTRANS).2 = [9] ∧
      (sampleOp.ApplyMV (BelosMultiVec.other 1) (BelosMultiVec.epetra [4])
          ETrans.NOTRANS).2 = BelosMultiVec.epetra [4] :=
  ⟨Apply_failure_atomic.1 sampleOp [1] [9] ETrans.CONJTRANS
      ApplyError.unsupportedOperation rfl,
    Apply_failure_atomic.2 sampleOp (BelosMultiVec.other 1)
      (BelosMultiVec.epetra [4]) ETrans.NOTRANS ApplyError.interfaceMismatch rfl⟩

/-! ### Claim theorems for the matrix format adapter -/

/-- Claim C7: every dimension/count query on the adapter returns exactly the
corresponding query on the wrapped matrix (identity delegation law). -/
theorem adapter_dimensions_delegate (A : MatrixAdapter) :
    A.getGlobalNNZ = A.mat.getGlobalNumEntries ∧
    A.getLocalNNZ = A.mat.getNodeNumEntries ∧
    A.getGlobalNumRows = A.mat.getGlobalNumRows ∧
    A.getGlobalNumCols = A.mat.getGlobalNumCols ∧
    A.getLocalNumRows = A.mat.getNodeNumRows ∧
    A.getLocalNumCols = A.mat.getNodeNumCols ∧
    A.getMaxNNZ = A.mat.getGlobalMaxNumRowEntries :=
  ⟨rfl, rfl, rfl, rfl, rfl, rfl, rfl⟩

/-- Claim C3: on the 6×6 test matrix with its 12 nonzeros, `getCrs` yields
`rowptr = [0,3,5,6,8,10,12]` and `nnz = 12`, and `getCcs` yields
`colptr = [0,3,5,7,9,11,12]` with strictly increasing row indices inside each
column slice; in particular column 0 yields rows `[0, 1, 3]`. -/
theorem testMatrix_crs_ccs :
    testAdapter.getCrs.rowptr = [0, 3, 5, 6, 8, 10, 12] ∧
    testAdapter.getCrs.nnz = 12 ∧
    testAdapter.getCcs.colptr = [0, 3, 5, 7, 9, 11, 12] ∧
    (∀ c, c < 6 → ((testAdapter.getCcs.colSlice c).map Prod.fst).Sorted (· < ·)) ∧
    (testAdapter.getCcs.colSlice 0).map Prod.fst = [0, 1, 3] := by
  decide

/-- Claim C1: for a well-formed matrix and every global row `r`, the
half-open slice `[rowptr[r], rowptr[r+1])` of `(colind, values)` equals the
matrix's nonzero set for row `r` as an unordered multiset of
(column, value) pairs. -/
theorem getCrs_rowSlice_eq (A : MatrixAdapter) (h : A.mat.WellFormed)
    (r : Nat) (hr : r < A.mat.numRows) :
    (↑(A.getCrs.rowSlice r) : Multiset (Nat × Int)) =
      ↑(A.mat.rows.getD r []) := by
  have hlen : r < A.mat.rows.length := by rw [h.1]; exact hr
  have e1 : A.getCrs.rowptr = ptrOf A.mat.rows := rfl
  show (↑(slice (A.getCrs.colind.zip A.getCrs.nzvals)
      (A.getCrs.rowptr.getD r 0) (A.getCrs.rowptr.getD (r + 1) 0)) :
        Multiset (Nat × Int)) = _
  rw [getCrs_zip, e1, ptrOf_getD _ _ (by omega), ptrOf_getD _ _ (by omega),
    slice_flatten _ _ hlen]

/-- Witness for C1: on the 6×6 test matrix, the slice of row 0 is exactly
row 0's nonzeros. -/
theorem getCrs_rowSlice_eq_witness :
    testAdapter.mat.WellFormed ∧ 0 < testAdapter.mat.numRows ∧
      (↑(testAdapter.getCrs.rowSlice 0) : Multiset (Nat × Int)) =
        ↑(testAdapter.mat.rows.getD 0 []) :=
  ⟨by decide, by decide, getCrs_rowSlice_eq testAdapter (by decide) 0 (by decide)⟩

/-- Claim C2: for a well-formed matrix and every global column `c`, the slice
`[colptr[c], colptr[c+1])` of `(rowind, values)` holds exactly the nonzeros
of column `c` (an all-zero column yields an empty slice), and the row indices
within the slice are strictly increasing. -/
theorem getCcs_colSlice_spec (A : MatrixAdapter) (h : A.mat.WellFormed)
    (c : Nat) (hc : c < A.mat.numCols) :
    (∀ p : Nat × Int, p ∈ A.getCcs.colSlice c ↔
        p.1 < A.mat.numRows ∧ (c, p.2) ∈ A.mat.rows.getD p.1 []) ∧
    ((A.getCcs.colSlice c).map Prod.fst).Sorted (· < ·) := by
  have hcl : c < A.mat.ccsCols.length := by
    rw [CrsMatrix.ccsCols, List.length_map, List.length_range]; exact hc
  have hslice : A.getCcs.colSlice c = A.mat.colEntries c := by
    have e1 : A.getCcs.colptr = ptrOf A.mat.ccsCols := rfl
    have e2 : A.mat.ccsCols.getD c [] = A.mat.colEntries c := by
      rw [CrsMatrix.ccsCols] at hcl ⊢
      rw [List.getD_eq_getElem _ _ hcl, List.getElem_map, List.getElem_range]
    show slice (A.getCcs.rowind.zip A.getCcs.nzvals)
        (A.getCcs.colptr.getD c 0) (A.getCcs.colptr.getD (c + 1) 0) = _
    rw [getCcs_zip, e1, ptrOf_getD _ _ (by omega), ptrOf_getD _ _ (by omega),
      slice_flatten _ _ hcl, e2]
  rw [hslice]
  exact ⟨fun p => mem_colEntries,
    colEntries_sorted A.mat (fun row hrow => (h.2 row hrow).1) c⟩

/-- Witness for C2: on the 6×6 test matrix, the slice of column 0 is exactly
column 0's nonzeros, with strictly increasing row indices. -/
theorem getCcs_colSlice_spec_witness :
    testAdapter.mat.WellFormed ∧ 0 < testAdapter.mat.numCols ∧
      ((∀ p : Nat × Int, p ∈ testAdapter.getCcs.colSlice 0 ↔
          p.1 < testAdapter.mat.numRows ∧
            (0, p.2) ∈ testAdapter.mat.rows.getD p.1 []) ∧
        ((testAdapter.getCcs.colSlice 0).map Prod.fst).Sorted (· < ·)) :=
  ⟨by decide, by decide, getCcs_colSlice_spec testAdapter (by decide) 0 (by decide)⟩

/-- Claim C8: for every well-formed matrix, `rowptr` and `colptr` are
monotonically non-decreasing, start at 0 and end at the total nonzero count,
and `rowptr` has length `globalRows + 1`. -/
theorem crs_ccs_ptr_invariants (A : MatrixAdapter) (h : A.mat.WellFormed) :
    A.getCrs.rowptr.Sorted (· ≤ ·) ∧
    A.getCrs.rowptr.head? = some 0 ∧
    A.getCrs.rowptr.getLast? = some A.getGlobalNNZ ∧
    A.getCrs.rowptr.length = A.getGlobalNumRows + 1 ∧
    A.getCcs.colptr.Sorted (· ≤ ·) ∧
    A.getCcs.colptr.head? = some 0 ∧
    A.getCcs.colptr.getLast? = some A.getGlobalNNZ := by
  have e1 : A.getCrs.rowptr = ptrOf A.mat.rows := rfl
  have e2 : A.getCcs.colptr = ptrOf A.mat.ccsCols := rfl
  rw [e1, e2]
  refine ⟨ptrOf_sorted _, ptrOf_head _, ?_, ?_, ptrOf_sorted _, ptrOf_head _, ?_⟩
  · rw [ptrOf_getLast,
      show A.mat.rows.flatten.length = A.getGlobalNNZ from by
        rw [List.length_flatten]; rfl]
  · rw [length_ptrOf, h.1]; rfl
  · rw [ptrOf_getLast, ccsCols_flatten_length A.mat h]; rfl

/-- Witness for C8: the pointer-array invariants hold on the 6×6 test
matrix. -/
theorem crs_ccs_ptr_invariants_witness :
    testAdapter.mat.WellFormed ∧
      (testAdapter.getCrs.rowptr.Sorted (· ≤ ·) ∧
        testAdapter.getCrs.rowptr.head? = some 0 ∧
        testAdapter.getCrs.rowptr.getLast? = some testAdapter.getGlobalNNZ ∧
        testAdapter.getCrs.rowptr.length = testAdapter.getGlobalNumRows + 1 ∧
        testAdapter.getCcs.colptr.Sorted (· ≤ ·) ∧
        testAdapter.getCcs.colptr.head? = some 0 ∧
        testAdapter.getCcs.colptr.getLast? = some testAdapter.getGlobalNNZ) :=
  ⟨by decide, crs_ccs_ptr_invariants testAdapter (by decide)⟩

/-- Claim C9: an extraction call whose caller-provided buffers are smaller
than required fails with the size-mismatch condition instead of silently
truncating, for `getCrs` and `getCcs` alike. -/
theorem getChecked_sizeMismatch :
    (∀ (A : MatrixAdapter) (nv nc np : Nat),
        (nv < A.getGlobalNNZ ∨ nc < A.getGlobalNNZ ∨
          np < A.getGlobalNumRows + 1) →
        A.getCrsChecked nv nc np = Except.error AdapterError.sizeMismatch) ∧
    (∀ (A : MatrixAdapter) (nv nr ncp : Nat),
        (nv < A.getGlobalNNZ ∨ nr < A.getGlobalNNZ ∨
          ncp < A.getGlobalNumCols + 1) →
        A.getCcsChecked nv nr ncp = Except.error AdapterError.sizeMismatch) := by
  constructor <;> intro A a b c h <;>
    simp only [MatrixAdapter.getCrsChecked, MatrixAdapter.getCcsChecked, if_pos h]

/-- Witness for C9: buffers sized for 11 nonzeros against the 12-nonzero test
matrix are rejected. -/
theorem getChecked_sizeMismatch_witness :
    (11 < testAdapter.getGlobalNNZ ∨ 12 < testAdapter.getGlobalNNZ ∨
        7 < testAdapter.getGlobalNumRows + 1) ∧
      testAdapter.getCrsChecked 11 12 7 = Except.error AdapterError.sizeMismatch ∧
      testAdapter.getCcsChecked 11 12 7 = Except.error AdapterError.sizeMismatch :=
  ⟨Or.inl (by decide),
    getChecked_sizeMismatch.1 testAdapter 11 12 7 (Or.inl (by decide)),
    getChecked_sizeMismatch.2 testAdapter 11 12 7 (Or.inl (by decide))⟩

end Trilinos
